import Mathlib

/-!
# terraform-provider-hashid: the `hashid_encode` data source

A shallow embedding of `internal/provider/data_source.go`.

* Go strings are byte sequences (`GoString`); `[]byte(s)` is the identity on them.
* `types.String` / `types.Int64` of the plugin framework are three-state values
  (null, unknown, known); `ValueString` of a null or unknown value is the empty string.
* The Hashids package (`github.com/speps/go-hashids`) is not part of the repository
  sources.  `Read` is embedded over an arbitrary package value (`HashidsLib`), so every
  statement about `Read` holds for whatever the package does.
* A Go call either returns or panics (`Outcome`): `EncodeHex` is a method on a pointer
  that `Read` never checks for nil.
-/

namespace HashId

/-! ## Go values -/

/-- A byte. -/
abbrev Byte := Fin 256

/-- A Go `string`: an immutable sequence of bytes. -/
abbrev GoString := List Byte

/-- The bytes of a text literal whose characters are all ASCII. -/
def ascii (s : String) : GoString :=
  s.toList.map (fun c => Fin.ofNat c.toNat)

/-- The result of a Go call: it returns a value or panics. -/
inductive Outcome (α : Type) where
  | returned (a : α)
  | panicked
  deriving DecidableEq, Repr

/-! ## `encoding/hex` -/

/-- The digit table of `encoding/hex`: `"0123456789abcdef"`. -/
def hextable : GoString :=
  [48, 49, 50, 51, 52, 53, 54, 55, 56, 57, 97, 98, 99, 100, 101, 102]

/-- Modelled from the spec: Go's `encoding/hex.EncodeToString`, which is not in the
repository (standard library).  The spec's "hexadecimal byte representation": every source
byte `v` becomes `hextable[v>>4]`, `hextable[v&0x0f]`. -/
def EncodeToString : List Byte → GoString
  | [] => []
  | v :: src => hextable.getD (v.val / 16) 0 :: hextable.getD (v.val % 16) 0 :: EncodeToString src

/-- Modelled from the spec: `fromHexChar` of Go's `encoding/hex` (not in the repository), the
value of one hexadecimal digit, if the byte is one. -/
def fromHexChar (c : Byte) : Option Nat :=
  if 48 ≤ c.val ∧ c.val ≤ 57 then some (c.val - 48)
  else if 97 ≤ c.val ∧ c.val ≤ 102 then some (c.val - 97 + 10)
  else if 65 ≤ c.val ∧ c.val ≤ 70 then some (c.val - 65 + 10)
  else none

/-- Modelled from the spec: Go's `encoding/hex.DecodeString` (not in the repository), the
inverse conversion the spec's round-trip requirement refers to: pairs of digits become
bytes; an invalid digit or an odd length is an error (`none`). -/
def DecodeString : GoString → Option (List Byte)
  | [] => some []
  | [_] => none
  | p :: q :: src =>
    match fromHexChar p, fromHexChar q with
    | some a, some b =>
      match DecodeString src with
      | some rest => some (Fin.ofNat (a * 16 + b) :: rest)
      | none => none
    | _, _ => none

/-- A lower-case hexadecimal digit, `0-9a-f`. -/
def isLowerHexDigit (c : Byte) : Bool :=
  (48 ≤ c.val && c.val ≤ 57) || (97 ≤ c.val && c.val ≤ 102)

/-! ## Plugin framework values -/

/-- The framework's `types.String`. -/
inductive TfString where
  | null
  | unknown
  | value (s : GoString)
  deriving DecidableEq, Repr

/-- The method `types.String.ValueString`: the known value, or `""` when the value is
null or unknown. -/
def TfString.ValueString : TfString → GoString
  | .value s => s
  | _ => []

/-- The constructor `types.StringValue`. -/
def StringValue (s : GoString) : TfString := .value s

/-- The framework's `types.Int64`. -/
inductive TfInt64 where
  | null
  | unknown
  | value (i : Int)
  deriving DecidableEq, Repr

/-- The method `types.Int64.ValueInt64`. -/
def TfInt64.ValueInt64 : TfInt64 → Int
  | .value i => i
  | _ => 0

/-- Severity of a diagnostic. -/
inductive Severity where
  | error
  | warning
  deriving DecidableEq, Repr

/-- One diagnostic of the framework. -/
structure Diagnostic where
  severity : Severity
  summary : String
  detail : String
  deriving DecidableEq, Repr

/-- The framework's `diag.Diagnostics`. -/
abbrev Diagnostics := List Diagnostic

/-- The method `Diagnostics.HasError`. -/
def Diagnostics.HasError (ds : Diagnostics) : Bool :=
  ds.any (fun d => d.severity == Severity.error)

/-! ## The data source -/

/-- The struct `HashIdDataSourceModel`: the data source data model. -/
structure HashIdDataSourceModel where
  Alphabet : TfString
  MinLength : TfInt64
  Salt : TfString
  EncodeValue : TfString
  HashId : TfString
  deriving DecidableEq, Repr

/-- The struct `HashIdDataSource`; `Client` stands for `http.Client`. -/
structure HashIdDataSource (Client : Type) where
  client : Option Client

/-- The function `NewHashIdDataSource`. -/
def NewHashIdDataSource (Client : Type) : HashIdDataSource Client :=
  { client := none }

/-- The request's `Config`, seen through the one call `Read` makes on it: what
`req.Config.Get(ctx, &data)` returns and what it leaves in `data`. -/
structure Config where
  Get : Diagnostics × HashIdDataSourceModel

/-- The framework's `datasource.ReadRequest`. -/
structure ReadRequest where
  Config : Config

/-- The framework's `datasource.ReadResponse`; `State` is `none` until it is set. -/
structure ReadResponse where
  State : Option HashIdDataSourceModel
  Diagnostics : Diagnostics
  deriving DecidableEq, Repr

/-- The call `resp.State.Set(ctx, &data)`: the model is stored; for a struct that
matches the schema the framework returns no diagnostics. -/
def StateSet (data : HashIdDataSourceModel) : Option HashIdDataSourceModel × Diagnostics :=
  (some data, [])

/-! ## The Hashids package, as `Read` uses it -/

/-- The struct `hashids.HashIDData`. -/
structure HashIDData where
  Alphabet : GoString
  MinLength : Int
  Salt : GoString
  deriving DecidableEq, Repr

/-- The calls `Read` makes into package `hashids`, for a package whose codec type is
`HashID` and whose errors are `Err`.  A `*HashID` is `Option HashID` (`none` is nil);
a Go `error` is `Option Err` (`none` is nil). -/
structure HashidsLib (HashID Err : Type) where
  NewData : HashIDData
  NewWithData : HashIDData → Option HashID × Option Err
  EncodeHex : Option HashID → GoString → Outcome (GoString × Option Err)

/-- The `hashids.HashIDData` that `Read` builds: `NewData()` with `Salt` and `Alphabet`
assigned; the assignment of `MinLength` is commented out in the source. -/
def readData {HashID Err : Type} (lib : HashidsLib HashID Err)
    (data : HashIdDataSourceModel) : HashIDData :=
  let hd := lib.NewData
  let hd := { hd with Salt := data.Salt.ValueString }
  let hd := { hd with Alphabet := data.Alphabet.ValueString }
  hd

/-- The method `HashIdDataSource.Read`. -/
def Read {Client HashID Err : Type} (lib : HashidsLib HashID Err)
    (_d : HashIdDataSource Client) (req : ReadRequest) (resp : ReadResponse) :
    Outcome ReadResponse :=
  let (diags, data) := req.Config.Get
  -- resp.Diagnostics.Append(req.Config.Get(ctx, &data)...)
  let resp := { resp with Diagnostics := resp.Diagnostics ++ diags }
  if resp.Diagnostics.HasError then
    .returned resp
  else
    let hd := readData lib data
    -- h, _ := hashids.NewWithData(hd)
    let h := (lib.NewWithData hd).1
    -- hashid, _ := h.EncodeHex(hex.EncodeToString([]byte(data.EncodeValue.ValueString())))
    match lib.EncodeHex h (EncodeToString data.EncodeValue.ValueString) with
    | .panicked => .panicked
    | .returned (hashid, _) =>
      -- data.HashId = types.StringValue(hashid): the computed hash id is stored (the source
      -- comment above this line, about a hardcoded response value, is left from a template)
      let data := { data with HashId := StringValue hashid }
      -- tflog.Trace writes a log line only
      let (st, diags2) := StateSet data
      .returned { State := st, Diagnostics := resp.Diagnostics ++ diags2 }

/-! ## The Hashids codec

The codec itself lives in package `github.com/speps/go-hashids`, outside the repository
sources.  The definitions of this section model it from the specification (§3, §4.1,
§9).  Where the specification leaves a detail open (the reserved characters, the
shuffle, the constants of the balance between separators, guards and alphabet) the
Hashids reference algorithm is taken, whose test vectors §8 pins.

* A character is a Unicode character (a Go rune): a string is read as UTF-8 on the way
  in and written as UTF-8 on the way out.
* Numbers are natural numbers.
* Indexing is total (`getD`) and a modulus of 0 leaves the number as it is; in a codec
  that `NewWithData` returns every index used is in range.
* Loops run on fuel that suffices for an alphabet of two or more characters. -/

/-- A character of the codec: a Unicode character, Go's `rune`. -/
abbrev Rune := Char

/-- Go's `utf8.RuneError`, U+FFFD, which stands for every byte that is not UTF-8. -/
def RuneError : Rune := Char.ofNat 0xFFFD

/-- Modelled from the spec: the first character of a string and the number of bytes it
takes, as Go reads a string into characters (`utf8.DecodeRuneInString`, not in the
repository): one to four bytes of UTF-8; a byte that starts no well-formed sequence is
`RuneError` of width 1. -/
def decodeRune : GoString → Rune × Nat
  | [] => (RuneError, 0)
  | b0 :: rest =>
    if b0.val < 0x80 then (Char.ofNat b0.val, 1)
    else if b0.val < 0xC2 then (RuneError, 1)
    else if b0.val < 0xE0 then
      match rest with
      | b1 :: _ =>
        if 0x80 ≤ b1.val ∧ b1.val ≤ 0xBF then
          (Char.ofNat (b0.val % 32 * 64 + b1.val % 64), 2)
        else (RuneError, 1)
      | _ => (RuneError, 1)
    else if b0.val < 0xF0 then
      match rest with
      | b1 :: b2 :: _ =>
        if (if b0.val = 0xE0 then 0xA0 else 0x80) ≤ b1.val ∧
            b1.val ≤ (if b0.val = 0xED then 0x9F else 0xBF) ∧
            0x80 ≤ b2.val ∧ b2.val ≤ 0xBF then
          (Char.ofNat (b0.val % 16 * 4096 + b1.val % 64 * 64 + b2.val % 64), 3)
        else (RuneError, 1)
      | _ => (RuneError, 1)
    else if b0.val < 0xF5 then
      match rest with
      | b1 :: b2 :: b3 :: _ =>
        if (if b0.val = 0xF0 then 0x90 else 0x80) ≤ b1.val ∧
            b1.val ≤ (if b0.val = 0xF4 then 0x8F else 0xBF) ∧
            0x80 ≤ b2.val ∧ b2.val ≤ 0xBF ∧ 0x80 ≤ b3.val ∧ b3.val ≤ 0xBF then
          (Char.ofNat (b0.val % 8 * 262144 + b1.val % 64 * 4096 + b2.val % 64 * 64
            + b3.val % 64), 4)
        else (RuneError, 1)
      | _ => (RuneError, 1)
    else (RuneError, 1)

/-- Modelled from the spec: the loop of `runes`, on fuel (the length of the string
suffices); not in the repository. -/
def runesLoop : Nat → GoString → List Rune
  | 0, _ => []
  | _ + 1, [] => []
  | fuel + 1, b :: s =>
    (decodeRune (b :: s)).1 :: runesLoop fuel ((b :: s).drop (decodeRune (b :: s)).2)

/-- Modelled from the spec: the characters of a string, Go's `[]rune(s)` (not in the
repository): the "ordered sequence of characters" of §3. -/
def runes (s : GoString) : List Rune :=
  runesLoop s.length s

/-- Modelled from the spec: the UTF-8 bytes of one character (`utf8.AppendRune`, not in
the repository). -/
def encodeRune (r : Rune) : GoString :=
  if r.toNat < 0x80 then [Fin.ofNat r.toNat]
  else if r.toNat < 0x800 then
    [Fin.ofNat (0xC0 + r.toNat / 64), Fin.ofNat (0x80 + r.toNat % 64)]
  else if r.toNat < 0x10000 then
    [Fin.ofNat (0xE0 + r.toNat / 4096), Fin.ofNat (0x80 + r.toNat / 64 % 64),
      Fin.ofNat (0x80 + r.toNat % 64)]
  else
    [Fin.ofNat (0xF0 + r.toNat / 262144), Fin.ofNat (0x80 + r.toNat / 4096 % 64),
      Fin.ofNat (0x80 + r.toNat / 64 % 64), Fin.ofNat (0x80 + r.toNat % 64)]

/-- Modelled from the spec: the string of a sequence of characters, Go's
`string(runes)` (not in the repository). -/
def runesToString (rs : List Rune) : GoString :=
  rs.flatMap encodeRune

/-- Modelled from the spec: whitespace, which §3 bans from the alphabet (not in the
repository): the characters with the Unicode property White_Space (tab to carriage
return, space, U+0085, U+00A0, U+1680, U+2000 to U+200A, U+2028, U+2029, U+202F, U+205F,
U+3000). -/
def isSpace (c : Rune) : Bool :=
  (0x09 ≤ c.toNat && c.toNat ≤ 0x0D) || c.toNat = 0x20 || c.toNat = 0x85 || c.toNat = 0xA0 ||
  c.toNat = 0x1680 || (0x2000 ≤ c.toNat && c.toNat ≤ 0x200A) || c.toNat = 0x2028 ||
  c.toNat = 0x2029 || c.toNat = 0x202F || c.toNat = 0x205F || c.toNat = 0x3000

/-- Modelled from the spec: the fixed characters reserved as separators (§3
`separators`); the codec code is not in the repository.  The reference algorithm reserves
`"cfhistuCFHISTU"`. -/
def sepsOriginal : List Rune := "cfhistuCFHISTU".toList

/-- Modelled from the spec: the default alphabet of `hashids.NewData()` (not in the
repository), the 62-character alphanumeric set of §8. -/
def DefaultAlphabet : GoString :=
  ascii "abcdefghijklmnopqrstuvwxyzABCDEFGHIJKLMNOPQRSTUVWXYZ1234567890"

/-- Modelled from the spec: the least number of usable alphabet characters (§3, §4.1
`NewCodec`); not in the repository. -/
def minAlphabetLength : Nat := 16

/-- Modelled from the spec: exchange of two positions of an alphabet, the elementary
step of the Fisher-Yates-style shuffle of §9; not in the repository. -/
def swap (l : List Rune) (i j : Nat) : List Rune :=
  (l.set i (l.getD j RuneError)).set j (l.getD i RuneError)

/-- Modelled from the spec: the loop of the salt-keyed shuffle (§9), not in the repository:
position `i` runs from the last index down to 1, `v` cycles through the salt, `p`
accumulates the salt's character codes. -/
def shuffleLoop (salt : List Rune) : Nat → Nat → Nat → List Rune → List Rune
  | 0, _, _, alphabet => alphabet
  | i + 1, v, p, alphabet =>
    let s := (salt.getD v RuneError).toNat
    let p := p + s
    let j := (s + v + p) % (i + 1)
    shuffleLoop salt i ((v + 1) % salt.length) p (swap alphabet (i + 1) j)

/-- Modelled from the spec: the salt-driven alphabet permutation of §9, "a pure
function from (alphabet, salt) to permuted alphabet"; not in the repository.  An empty salt
leaves the alphabet as it is. -/
def consistentShuffle (alphabet salt : List Rune) : List Rune :=
  if salt.length = 0 then alphabet
  else shuffleLoop salt (alphabet.length - 1) 0 0 alphabet

/-- Modelled from the spec: the digit loop of `Encode` step 3 (not in the repository): one
alphabet character per remainder; consing the characters leaves the most significant
digit first. -/
def hashLoop (alphabet : List Rune) : Nat → Nat → List Rune → List Rune
  | 0, _, acc => acc
  | fuel + 1, input, acc =>
    let acc := alphabet.getD (input % alphabet.length) RuneError :: acc
    let input := input / alphabet.length
    if input = 0 then acc else hashLoop alphabet fuel input acc

/-- Modelled from the spec: `Encode` step 3, the chunk of one number: its digits in
base `len(alphabet)`, most significant first; not in the repository. -/
def hash (input : Nat) (alphabet : List Rune) : List Rune :=
  hashLoop alphabet (input + 1) input []

/-- Modelled from the spec: one step of `unhash` (not in the repository): the position of the
character in the alphabet is the next digit; a character outside the alphabet is an
error. -/
def unhashStep (alphabet : List Rune) (acc : Option Nat) (c : Rune) : Option Nat :=
  match acc with
  | none => none
  | some r =>
    let pos := alphabet.indexOf c
    if pos < alphabet.length then some (r * alphabet.length + pos) else none

/-- Modelled from the spec: the inverse of `hash` that `Decode` uses to reconstruct a
number from its chunk (not in the repository). -/
def unhash (input alphabet : List Rune) : Option Nat :=
  input.foldl (unhashStep alphabet) (some 0)

/-- Modelled from the spec: splitting a string at every character of a reserved set
(`Decode`: "strips guard characters, splits on separators"); not in the repository. -/
def splitRunes (input seps : List Rune) : List (List Rune) :=
  input.splitOnP (fun c => decide (c ∈ seps))

/-- Modelled from the spec: the codec, §3 "Derived state": working alphabet,
separators, guards, with the salt and the minimum length; not in the repository. -/
structure HashID where
  alphabet : List Rune
  minLength : Nat
  salt : List Rune
  seps : List Rune
  guards : List Rune
  deriving DecidableEq, Repr

/-- Modelled from the spec: the balance between separators and working alphabet kept
by the reference algorithm (not in the repository): when there are no separators, or more than
3.5 alphabet characters per separator, the separators are brought to
`ceil(len(alphabet)/3.5)` characters (at least 2), taking the missing ones from the
front of the alphabet. -/
def balanceSeps (seps alphabet : List Rune) : List Rune × List Rune :=
  if seps.length = 0 ∨ 7 * seps.length < 2 * alphabet.length then
    let k := (2 * alphabet.length + 6) / 7
    let sepsLength := if k = 1 then 2 else k
    if seps.length < sepsLength then
      let diff := sepsLength - seps.length
      (seps ++ alphabet.take diff, alphabet.drop diff)
    else (seps.take sepsLength, alphabet)
  else (seps, alphabet)

/-- Modelled from the spec: the derived state of §3 (not in the repository): separators
are the reserved characters present in the alphabet, shuffled by the salt; the working
alphabet is the rest, shuffled by the salt; guards are `ceil(len(alphabet)/12)`
characters taken from the alphabet (from the separators when the alphabet has fewer
than 3 characters). -/
def newCodec (alphabet salt : List Rune) (minLength : Nat) : HashID :=
  let seps := sepsOriginal.filter (fun c => decide (c ∈ alphabet))
  let alphabet := alphabet.filter (fun c => decide (c ∉ sepsOriginal))
  let seps := consistentShuffle seps salt
  let b := balanceSeps seps alphabet
  let seps := b.1
  let alphabet := consistentShuffle b.2 salt
  let guardCount := (alphabet.length + 11) / 12
  if alphabet.length < 3 then
    { alphabet := alphabet, minLength := minLength, salt := salt,
      seps := seps.drop guardCount, guards := seps.take guardCount }
  else
    { alphabet := alphabet.drop guardCount, minLength := minLength, salt := salt,
      seps := seps, guards := alphabet.take guardCount }

/-- Modelled from the spec: `NewCodec(alphabet, salt, minLength)` of §4.1, the
function `hashids.NewWithData` (not in the repository).  Alphabet and salt are read as
characters.  Construction fails for a duplicate character, for whitespace in the
alphabet (§3), for a negative minimum length, and when fewer than 16 usable characters
remain in the working alphabet after separators and guards are reserved (§3, §4.1);
the result is Go's pair (codec or nil, error or nil). -/
def NewWithData (data : HashIDData) : Option HashID × Option String :=
  if ¬ (runes data.Alphabet).Nodup then
    (none, some "duplicate character in alphabet")
  else if (runes data.Alphabet).any isSpace then
    (none, some "alphabet must not contain whitespace")
  else if data.MinLength < 0 then
    (none, some "negative minimum length")
  else if (newCodec (runes data.Alphabet) (runes data.Salt) data.MinLength.toNat).alphabet.length
      < minAlphabetLength then
    (none, some "alphabet must contain at least 16 characters")
  else
    (some (newCodec (runes data.Alphabet) (runes data.Salt) data.MinLength.toNat), none)

/-- Modelled from the spec: `Encode` step 1, the hash seed: the sum over the numbers
of `number mod (index + 100)`; not in the repository. -/
def numbersHash : Nat → List Nat → Nat
  | _, [] => 0
  | i, n :: ns => n % (i + 100) + numbersHash (i + 1) ns

/-- Modelled from the spec: `Encode` step 2 (not in the repository), the per-number alphabet
permutation: the alphabet is shuffled with the key made of the lottery character, the
salt and the alphabet itself, cut to the alphabet's length. -/
def lotteryShuffle (salt : List Rune) (lottery : Rune) (alphabet : List Rune) : List Rune :=
  consistentShuffle alphabet ((lottery :: (salt ++ alphabet)).take alphabet.length)

/-- Modelled from the spec: `Encode` steps 2 to 4 (not in the repository).  For each number the
alphabet is re-permuted, keyed by lottery character, salt and the alphabet itself; the
number's chunk is emitted; between two chunks stands one separator, chosen from the
number.  Returns the text after the lottery character and the last alphabet. -/
def encodeLoop (h : HashID) (lottery : Rune) :
    Nat → List Nat → List Rune → List Rune × List Rune
  | _, [], alphabet => ([], alphabet)
  | i, n :: rest, alphabet =>
    let alphabet := lotteryShuffle h.salt lottery alphabet
    let hashBuf := hash n alphabet
    match rest with
    | [] => (hashBuf, alphabet)
    | _ :: _ =>
      let m := n % ((hashBuf.headD RuneError).toNat + i)
      let sep := h.seps.getD (m % h.seps.length) RuneError
      let r := encodeLoop h lottery (i + 1) rest alphabet
      (hashBuf ++ sep :: r.1, r.2)

/-- Modelled from the spec: the last part of `Encode` step 6 (not in the repository): while the
result is short, the alphabet is permuted by itself and wrapped around the result,
which is cut back to the minimum length around its middle. -/
def padLoop (minLength : Nat) : Nat → List Rune → List Rune → List Rune
  | 0, _, result => result
  | fuel + 1, alphabet, result =>
    if result.length < minLength then
      let alphabet := consistentShuffle alphabet alphabet
      let halfLength := alphabet.length / 2
      let result := alphabet.drop halfLength ++ (result ++ alphabet.take halfLength)
      let excess := result.length - minLength
      let result := if 0 < excess then (result.drop (excess / 2)).take minLength else result
      padLoop minLength fuel alphabet result
    else result

/-- Modelled from the spec: `Encode(codec, numbers)` of §4.1 (not in the repository), on
characters: lottery character from the hash seed (steps 1, 5), chunks and separators
(steps 2 to 4), then padding to the minimum length (step 6), the guard index being
`(lottery_char_code + result[0]) mod len(guards)` for the front guard and the same
with `result[2]` for the back guard.  An empty list of numbers is an error. -/
def encodeRunes (h : HashID) (numbers : List Nat) : List Rune × Option String :=
  if numbers.length = 0 then
    ([], some "encoding empty array of numbers makes no sense")
  else
    let lottery := h.alphabet.getD (numbersHash 0 numbers % h.alphabet.length) RuneError
    let r := encodeLoop h lottery 0 numbers h.alphabet
    let result := lottery :: r.1
    let result :=
      if result.length < h.minLength then
        let result :=
          h.guards.getD ((lottery.toNat + (result.headD RuneError).toNat) % h.guards.length)
            RuneError :: result
        if result.length < h.minLength then
          result ++ [h.guards.getD
            ((lottery.toNat + (result.getD 2 RuneError).toNat) % h.guards.length) RuneError]
        else result
      else result
    (padLoop h.minLength h.minLength r.2 result, none)

/-- Modelled from the spec: `Encode(codec, numbers)` of §4.1 (not in the repository): the
characters of `encodeRunes`, written as a string. -/
def Encode (h : HashID) (numbers : List Nat) : GoString × Option String :=
  (runesToString (encodeRunes h numbers).1, (encodeRunes h numbers).2)

/-- Modelled from the spec: the number loop of `Decode` (not in the repository): the same
per-number permutation as in `Encode`, then `unhash` of the chunk. -/
def decodeLoop (h : HashID) (lottery : Rune) :
    List (List Rune) → List Rune → Option (List Nat)
  | [], _ => some []
  | subHash :: rest, alphabet =>
    let alphabet := lotteryShuffle h.salt lottery alphabet
    match unhash subHash alphabet with
    | none => none
    | some number =>
      match decodeLoop h lottery rest alphabet with
      | none => none
      | some numbers => some (number :: numbers)

/-- Modelled from the spec: the decoding part of `Decode` (not in the repository), on the
characters of the hash: the part between the guards is taken, its first character is
the lottery character, the rest is split on separators and every chunk is turned back
into its number. -/
def decodeRunes (h : HashID) (hashStr : List Rune) : Option (List Nat) :=
  let hashes := splitRunes hashStr h.guards
  let hashIndex := if hashes.length = 2 ∨ hashes.length = 3 then 1 else 0
  match hashes.getD hashIndex [] with
  | [] => some []
  | lottery :: hashBreakdown =>
    decodeLoop h lottery (splitRunes hashBreakdown h.seps) h.alphabet

/-- Modelled from the spec: `Decode(codec, hash)` of §4.1 (not in the repository): the
hash is read as characters and decoded; then the numbers are encoded again and the
result is compared with the hash string (the re-encode verification). -/
def Decode (h : HashID) (hashStr : GoString) : List Nat × Option String :=
  match decodeRunes h (runes hashStr) with
  | none => ([], some "alphabet used for hash was different")
  | some result =>
    if (Encode h result).1 = hashStr then (result, none)
    else (result, some "mismatch between encode and decode")

/-- Modelled from the spec: the number sequence of a hexadecimal string, §4.1 "Hex
convenience wrappers" (not in the repository): every digit is one chunk, its nibble behind the
sentinel nibble `1`, so the number is `0x10 + nibble`.  `none` for an invalid digit. -/
def hexNumbers : GoString → Option (List Nat)
  | [] => some []
  | b :: hex =>
    match fromHexChar b, hexNumbers hex with
    | some d, some ns => some ((16 + d) :: ns)
    | _, _ => none

/-- Modelled from the spec: the method `(*HashID).EncodeHex` (not in the repository), §4.1
"Hex convenience wrappers": the digits become numbers, which are encoded.  The
receiver is a pointer: an invalid digit or an empty string is an error before the codec
is touched; encoding through a nil codec panics. -/
def EncodeHex (h : Option HashID) (hex : GoString) : Outcome (GoString × Option String) :=
  match hexNumbers hex with
  | none => .returned ([], some "invalid hex digit")
  | some nums =>
    if nums.length = 0 then
      .returned ([], some "encoding empty array of numbers makes no sense")
    else
      match h with
      | none => .panicked
      | some codec => .returned (Encode codec nums)

/-- Modelled from the spec: the digits of a list of numbers, each of which must be
`0x10 + nibble`; the inverse of `hexNumbers` (not in the repository). -/
def numbersHex : List Nat → Option GoString
  | [] => some []
  | n :: ns =>
    if 16 ≤ n ∧ n ≤ 31 then
      match numbersHex ns with
      | some hex => some (hextable.getD (n - 16) 0 :: hex)
      | none => none
    else none

/-- Modelled from the spec: `DecodeHex(codec, hash)` of §4.1 (not in the repository): decode
to numbers, then strip the sentinel nibble of every number. -/
def DecodeHex (h : HashID) (hashStr : GoString) : GoString × Option String :=
  match Decode h hashStr with
  | (_, some err) => ([], some err)
  | (numbers, none) =>
    match numbersHex numbers with
    | some hex => (hex, none)
    | none => ([], some "invalid number")

/-- Modelled from the spec: package `hashids` as `Read` calls it (not in the repository):
`NewData()` is the default alphabet with no salt and minimum length 0. -/
def hashids : HashidsLib HashID String where
  NewData := { Alphabet := DefaultAlphabet, MinLength := 0, Salt := [] }
  NewWithData := NewWithData
  EncodeHex := EncodeHex

/-! ## Observations and example configurations -/

/-- The `hash_id` a call of `Read` leaves in the state; `none` while the state is
unset. -/
def writtenHashId : Outcome ReadResponse → Outcome (Option TfString)
  | .panicked => .panicked
  | .returned r => .returned (r.State.map (fun st => st.HashId))

/-- A configuration as `Config.Get` delivers it without diagnostics: the four required
attributes known, the computed `hash_id` null. -/
def configOf (alphabet : GoString) (minLength : Int) (salt encodeValue : GoString) :
    ReadRequest :=
  { Config := { Get := ([], { Alphabet := .value alphabet, MinLength := .value minLength,
                              Salt := .value salt, EncodeValue := .value encodeValue,
                              HashId := .null }) } }

/-- The response the framework hands to `Read`: no state yet, no diagnostics. -/
def freshResponse : ReadResponse := { State := none, Diagnostics := [] }

/-- The invariant of a constructed codec: guards, separators and working alphabet have
no character in common and none twice; the alphabet has at least two characters and
there is a separator. -/
def HashID.WellFormed (h : HashID) : Prop :=
  (h.guards ++ (h.seps ++ h.alphabet)).Nodup ∧ 2 ≤ h.alphabet.length ∧ 0 < h.seps.length

instance (h : HashID) : Decidable h.WellFormed := by
  unfold HashID.WellFormed
  infer_instance

/-- A package that hands back, as the hash id, the string `EncodeHex` is given: it makes
the argument of the call visible in the state that `Read` writes. -/
def echoHex : HashidsLib Unit Unit where
  NewData := { Alphabet := [], MinLength := 0, Salt := [] }
  NewWithData := fun _ => (some (), none)
  EncodeHex := fun _ hex => .returned (hex, none)

/-- The 32 letters of the Russian alphabet without ё, as a UTF-8 string of 64 bytes: an
alphabet of distinct characters of two bytes each. -/
def cyrillicAlphabet : GoString :=
  runesToString "абвгдежзийклмнопрстуфхцчшщъыьэюя".toList

/-! ## `Read`, unfolded -/

/-- The body of `Read` when the configuration is read without error. -/
theorem Read_of_config_ok {Client HashID Err : Type} (lib : HashidsLib HashID Err)
    (d : HashIdDataSource Client) (req : ReadRequest) (resp : ReadResponse)
    (hcfg : Diagnostics.HasError (resp.Diagnostics ++ req.Config.Get.1) = false) :
    Read lib d req resp =
      match lib.EncodeHex (lib.NewWithData (readData lib req.Config.Get.2)).1
          (EncodeToString req.Config.Get.2.EncodeValue.ValueString) with
      | .panicked => .panicked
      | .returned r =>
        .returned { State := some { req.Config.Get.2 with HashId := StringValue r.1 },
                    Diagnostics := resp.Diagnostics ++ req.Config.Get.1 } := by
  unfold Read
  obtain ⟨cfg⟩ := req
  obtain ⟨diags, data⟩ := cfg
  simp only [] at hcfg ⊢
  rw [if_neg (by simp [hcfg])]
  cases lib.EncodeHex (lib.NewWithData (readData lib data)).1
      (EncodeToString data.EncodeValue.ValueString) with
  | panicked => rfl
  | returned r => obtain ⟨a, b⟩ := r; simp [StateSet]

/-- The early return of `Read`: with an error among the diagnostics the response is
returned with the diagnostics only. -/
theorem Read_of_config_error {Client HashID Err : Type} (lib : HashidsLib HashID Err)
    (d : HashIdDataSource Client) (req : ReadRequest) (resp : ReadResponse)
    (hcfg : Diagnostics.HasError (resp.Diagnostics ++ req.Config.Get.1) = true) :
    Read lib d req resp =
      .returned { resp with Diagnostics := resp.Diagnostics ++ req.Config.Get.1 } := by
  unfold Read
  obtain ⟨cfg⟩ := req
  obtain ⟨diags, data⟩ := cfg
  simp only [] at hcfg ⊢
  rw [if_pos hcfg]

/-- With the configuration read without error, the `hash_id` that `Read` leaves depends
only on the configured alphabet, salt and value. -/
theorem writtenHashId_Read {Client HashID Err : Type} (lib : HashidsLib HashID Err)
    (d : HashIdDataSource Client) (req : ReadRequest) (resp : ReadResponse)
    (hcfg : Diagnostics.HasError (resp.Diagnostics ++ req.Config.Get.1) = false) :
    writtenHashId (Read lib d req resp) =
      match lib.EncodeHex
          (lib.NewWithData { Alphabet := req.Config.Get.2.Alphabet.ValueString,
                             MinLength := lib.NewData.MinLength,
                             Salt := req.Config.Get.2.Salt.ValueString }).1
          (EncodeToString req.Config.Get.2.EncodeValue.ValueString) with
      | .panicked => .panicked
      | .returned r => .returned (some (StringValue r.1)) := by
  rw [Read_of_config_ok lib d req resp hcfg]
  simp only [readData]
  cases lib.EncodeHex _ _ <;> rfl

/-- C1, as amended: when the configuration is read without error and the call
`h.EncodeHex(hex)` returns, `Read` writes a state whose `hash_id` is the string that call
returned (whether or not it also returned an error), the other fields as configured;
`h` is what `NewWithData` returns for `NewData()` with exactly the configured alphabet
and salt assigned, and `hex` is the hexadecimal form of the bytes of `encode_value`. -/
theorem Read_hash_id_is_EncodeHex {Client HashID Err : Type} (lib : HashidsLib HashID Err)
    (d : HashIdDataSource Client) (req : ReadRequest) (resp : ReadResponse)
    (hashid : GoString) (err : Option Err)
    (hcfg : Diagnostics.HasError (resp.Diagnostics ++ req.Config.Get.1) = false)
    (henc : lib.EncodeHex
        (lib.NewWithData { Alphabet := req.Config.Get.2.Alphabet.ValueString,
                           MinLength := lib.NewData.MinLength,
                           Salt := req.Config.Get.2.Salt.ValueString }).1
        (EncodeToString req.Config.Get.2.EncodeValue.ValueString)
      = .returned (hashid, err)) :
    Read lib d req resp =
      .returned { State := some { Alphabet := req.Config.Get.2.Alphabet,
                                  MinLength := req.Config.Get.2.MinLength,
                                  Salt := req.Config.Get.2.Salt,
                                  EncodeValue := req.Config.Get.2.EncodeValue,
                                  HashId := TfString.value hashid },
                  Diagnostics := resp.Diagnostics ++ req.Config.Get.1 } := by
  rw [Read_of_config_ok lib d req resp hcfg]
  simp only [readData]
  rw [henc]
  rfl

set_option maxRecDepth 100000 in
/-- C1 as amended, at a concrete input: the default alphabet, salt "this is my salt",
value "hello"; the state holds the hash id `K4CkFlCjTBC4U1CpUQCk`. -/
theorem Read_hash_id_is_EncodeHex_witness :
    Diagnostics.HasError (freshResponse.Diagnostics ++
        (configOf DefaultAlphabet 0 (ascii "this is my salt") (ascii "hello")).Config.Get.1)
      = false ∧
    hashids.EncodeHex
        (hashids.NewWithData { Alphabet := DefaultAlphabet, MinLength := 0,
                               Salt := ascii "this is my salt" }).1
        (EncodeToString (ascii "hello"))
      = .returned (ascii "K4CkFlCjTBC4U1CpUQCk", none) ∧
    Read hashids (NewHashIdDataSource Unit)
        (configOf DefaultAlphabet 0 (ascii "this is my salt") (ascii "hello")) freshResponse
      = .returned { State := some { Alphabet := .value DefaultAlphabet, MinLength := .value 0,
                                    Salt := .value (ascii "this is my salt"),
                                    EncodeValue := .value (ascii "hello"),
                                    HashId := .value (ascii "K4CkFlCjTBC4U1CpUQCk") },
                    Diagnostics := [] } :=
  ⟨by decide, by decide,
   Read_hash_id_is_EncodeHex hashids (NewHashIdDataSource Unit)
     (configOf DefaultAlphabet 0 (ascii "this is my salt") (ascii "hello")) freshResponse
     (ascii "K4CkFlCjTBC4U1CpUQCk") none (by decide) (by decide)⟩

set_option maxRecDepth 100000 in
/-- C1 as first stated fails: the configuration with alphabet "abc" and value "hello" is
read without error, `NewWithData` returns a nil codec, and `Read` returns no response at
all, so it writes no state. -/
theorem Read_writes_no_state_for_nil_codec :
    Diagnostics.HasError (freshResponse.Diagnostics ++
        (configOf (ascii "abc") 0 [] (ascii "hello")).Config.Get.1) = false ∧
    (hashids.NewWithData { Alphabet := ascii "abc", MinLength := 0, Salt := [] }).1 = none ∧
    ¬ ∃ r, Read hashids (NewHashIdDataSource Unit)
        (configOf (ascii "abc") 0 [] (ascii "hello")) freshResponse = .returned r := by
  refine ⟨by decide, by decide, ?_⟩
  have hp : Read hashids (NewHashIdDataSource Unit)
      (configOf (ascii "abc") 0 [] (ascii "hello")) freshResponse = .panicked := by decide
  rw [hp]
  rintro ⟨r, hr⟩
  cases hr

/-- C7: `min_length` is never applied.  Two configurations that agree on alphabet, salt
and value, whatever their `min_length`, leave the same `hash_id` (or both calls
panic). -/
theorem Read_ignores_min_length {Client HashID Err : Type} (lib : HashidsLib HashID Err)
    (d : HashIdDataSource Client) (req₁ req₂ : ReadRequest) (resp : ReadResponse)
    (hcfg₁ : Diagnostics.HasError (resp.Diagnostics ++ req₁.Config.Get.1) = false)
    (hcfg₂ : Diagnostics.HasError (resp.Diagnostics ++ req₂.Config.Get.1) = false)
    (halphabet : req₁.Config.Get.2.Alphabet = req₂.Config.Get.2.Alphabet)
    (hsalt : req₁.Config.Get.2.Salt = req₂.Config.Get.2.Salt)
    (hvalue : req₁.Config.Get.2.EncodeValue = req₂.Config.Get.2.EncodeValue) :
    writtenHashId (Read lib d req₁ resp) = writtenHashId (Read lib d req₂ resp) := by
  rw [writtenHashId_Read lib d req₁ resp hcfg₁, writtenHashId_Read lib d req₂ resp hcfg₂,
    halphabet, hsalt, hvalue]

set_option maxRecDepth 100000 in
/-- C7 at a concrete input: `min_length` 0 and `min_length` 30 give the same hash id, of
20 characters. -/
theorem Read_ignores_min_length_witness :
    (configOf DefaultAlphabet 0 [] (ascii "hello")).Config.Get.2.MinLength ≠
      (configOf DefaultAlphabet 30 [] (ascii "hello")).Config.Get.2.MinLength ∧
    writtenHashId (Read hashids (NewHashIdDataSource Unit)
        (configOf DefaultAlphabet 30 [] (ascii "hello")) freshResponse)
      = .returned (some (StringValue (ascii "LwF2INFNCZF0coFZcKFo"))) ∧
    writtenHashId (Read hashids (NewHashIdDataSource Unit)
        (configOf DefaultAlphabet 0 [] (ascii "hello")) freshResponse)
      = writtenHashId (Read hashids (NewHashIdDataSource Unit)
        (configOf DefaultAlphabet 30 [] (ascii "hello")) freshResponse) :=
  ⟨by decide, by decide,
   Read_ignores_min_length hashids (NewHashIdDataSource Unit)
     (configOf DefaultAlphabet 0 [] (ascii "hello"))
     (configOf DefaultAlphabet 30 [] (ascii "hello")) freshResponse
     (by decide) (by decide) rfl rfl rfl⟩

/-- C8: `Read` is deterministic.  Two invocations with the same alphabet, salt,
`min_length` and value leave the same `hash_id`, whatever the data sources (their
client fields, even the client types) and whatever responses free of errors they are
handed. -/
theorem Read_deterministic {Client₁ Client₂ HashID Err : Type} (lib : HashidsLib HashID Err)
    (d₁ : HashIdDataSource Client₁) (d₂ : HashIdDataSource Client₂)
    (req₁ req₂ : ReadRequest) (resp₁ resp₂ : ReadResponse)
    (hcfg₁ : Diagnostics.HasError (resp₁.Diagnostics ++ req₁.Config.Get.1) = false)
    (hcfg₂ : Diagnostics.HasError (resp₂.Diagnostics ++ req₂.Config.Get.1) = false)
    (halphabet : req₁.Config.Get.2.Alphabet = req₂.Config.Get.2.Alphabet)
    (hsalt : req₁.Config.Get.2.Salt = req₂.Config.Get.2.Salt)
    (_hmin : req₁.Config.Get.2.MinLength = req₂.Config.Get.2.MinLength)
    (hvalue : req₁.Config.Get.2.EncodeValue = req₂.Config.Get.2.EncodeValue) :
    writtenHashId (Read lib d₁ req₁ resp₁) = writtenHashId (Read lib d₂ req₂ resp₂) := by
  rw [writtenHashId_Read lib d₁ req₁ resp₁ hcfg₁, writtenHashId_Read lib d₂ req₂ resp₂ hcfg₂,
    halphabet, hsalt, hvalue]

set_option maxRecDepth 100000 in
/-- C8 at a concrete input: a data source without client and one with a client, of
different client types, leave the same hash id for "hello". -/
theorem Read_deterministic_witness :
    writtenHashId (Read hashids ({ client := none } : HashIdDataSource Unit)
        (configOf DefaultAlphabet 7 (ascii "salt") (ascii "hello")) freshResponse)
      = writtenHashId (Read hashids ({ client := some 3 } : HashIdDataSource Nat)
        (configOf DefaultAlphabet 7 (ascii "salt") (ascii "hello")) freshResponse) ∧
    writtenHashId (Read hashids ({ client := some 3 } : HashIdDataSource Nat)
        (configOf DefaultAlphabet 7 (ascii "salt") (ascii "hello")) freshResponse)
      ≠ .panicked :=
  ⟨Read_deterministic hashids ({ client := none } : HashIdDataSource Unit)
     ({ client := some 3 } : HashIdDataSource Nat)
     (configOf DefaultAlphabet 7 (ascii "salt") (ascii "hello"))
     (configOf DefaultAlphabet 7 (ascii "salt") (ascii "hello")) freshResponse freshResponse
     (by decide) (by decide) rfl rfl rfl rfl,
   by decide⟩

/-- C10: `Read` passes its inputs through.  When the configuration is read without
error and `EncodeHex` returns, the state `Read` writes is the model read from the
configuration with `hash_id` replaced: alphabet, `min_length`, salt and value are the
configured ones. -/
theorem Read_frame {Client HashID Err : Type} (lib : HashidsLib HashID Err)
    (d : HashIdDataSource Client) (req : ReadRequest) (resp : ReadResponse)
    (hashid : GoString) (err : Option Err)
    (hcfg : Diagnostics.HasError (resp.Diagnostics ++ req.Config.Get.1) = false)
    (henc : lib.EncodeHex (lib.NewWithData (readData lib req.Config.Get.2)).1
        (EncodeToString req.Config.Get.2.EncodeValue.ValueString) = .returned (hashid, err)) :
    ∃ st, Read lib d req resp =
        .returned { State := some st, Diagnostics := resp.Diagnostics ++ req.Config.Get.1 } ∧
      st.Alphabet = req.Config.Get.2.Alphabet ∧
      st.MinLength = req.Config.Get.2.MinLength ∧
      st.Salt = req.Config.Get.2.Salt ∧
      st.EncodeValue = req.Config.Get.2.EncodeValue ∧
      st = { req.Config.Get.2 with HashId := StringValue hashid } := by
  rw [Read_of_config_ok lib d req resp hcfg, henc]
  exact ⟨_, rfl, rfl, rfl, rfl, rfl, rfl⟩

set_option maxRecDepth 100000 in
/-- C10 at a concrete input: alphabet, `min_length` 12, salt and value "hello" are in
the written state as configured. -/
theorem Read_frame_witness :
    ∃ st, Read hashids (NewHashIdDataSource Unit)
        (configOf DefaultAlphabet 12 (ascii "salt") (ascii "hello")) freshResponse
        = .returned { State := some st, Diagnostics := [] } ∧
      st.Alphabet = .value DefaultAlphabet ∧
      st.MinLength = .value 12 ∧
      st.Salt = .value (ascii "salt") ∧
      st.EncodeValue = .value (ascii "hello") ∧
      st = { (configOf DefaultAlphabet 12 (ascii "salt") (ascii "hello")).Config.Get.2 with
             HashId := StringValue (ascii "9gh7tGhvTXhpsWh5slhO") } :=
  Read_frame hashids (NewHashIdDataSource Unit)
    (configOf DefaultAlphabet 12 (ascii "salt") (ascii "hello")) freshResponse
    (ascii "9gh7tGhvTXhpsWh5slhO") none (by decide) (by decide)

/-! ## `encoding/hex` -/

set_option maxRecDepth 100000 in
/-- The two digits of a byte decode to the byte. -/
theorem fromHexChar_hextable (v : Byte) :
    fromHexChar (hextable.getD (v.val / 16) 0) = some (v.val / 16) ∧
    fromHexChar (hextable.getD (v.val % 16) 0) = some (v.val % 16) := by
  revert v; decide

set_option maxRecDepth 100000 in
/-- Both digits of a byte are lower-case hexadecimal digits. -/
theorem isLowerHexDigit_hextable (v : Byte) :
    isLowerHexDigit (hextable.getD (v.val / 16) 0) = true ∧
    isLowerHexDigit (hextable.getD (v.val % 16) 0) = true := by
  revert v; decide

/-- Decoding the hexadecimal form of a byte string gives the byte string. -/
theorem DecodeString_EncodeToString (b : List Byte) :
    DecodeString (EncodeToString b) = some b := by
  induction b with
  | nil => rfl
  | cons v src ih =>
    have h := fromHexChar_hextable v
    simp only [EncodeToString, DecodeString, h.1, h.2, ih]
    congr 2
    apply Fin.ext
    have hv := v.isLt
    simp only [Fin.ofNat, Fin.val_mk]
    omega

/-- The hexadecimal form of `n` bytes has `2 * n` characters. -/
theorem length_EncodeToString (b : List Byte) :
    (EncodeToString b).length = 2 * b.length := by
  induction b with
  | nil => rfl
  | cons v src ih => simp only [EncodeToString, List.length_cons, ih]; omega

/-- Every character of a hexadecimal form is one of `0-9a-f`. -/
theorem isLowerHexDigit_of_mem_EncodeToString (b : List Byte) :
    ∀ c ∈ EncodeToString b, isLowerHexDigit c = true := by
  induction b with
  | nil => intro c hc; simp [EncodeToString] at hc
  | cons v src ih =>
    intro c hc
    have h := isLowerHexDigit_hextable v
    simp only [EncodeToString, List.mem_cons] at hc
    rcases hc with rfl | rfl | hc
    · exact h.1
    · exact h.2
    · exact ih c hc

/-- The number sequence of a hexadecimal form: two numbers in `16..31` per byte. -/
theorem hexNumbers_EncodeToString (b : List Byte) :
    hexNumbers (EncodeToString b) =
      some (b.flatMap (fun v => [16 + v.val / 16, 16 + v.val % 16])) := by
  induction b with
  | nil => rfl
  | cons v src ih =>
    have h := fromHexChar_hextable v
    simp only [EncodeToString, hexNumbers, h.1, h.2, ih, List.flatMap_cons, List.cons_append,
      List.nil_append]

/-- C6: the conversion of `encode_value` to hexadecimal round-trips: decoding the
hexadecimal form of any byte string gives the byte string back, so different values
have different hexadecimal forms, also with leading zero bytes; "hello" becomes
"68656c6c6f". -/
theorem hex_conversion_roundtrip :
    (∀ b : List Byte, DecodeString (EncodeToString b) = some b) ∧
    (∀ b₁ b₂ : List Byte, EncodeToString b₁ = EncodeToString b₂ → b₁ = b₂) ∧
    (∀ b : List Byte, DecodeString (EncodeToString (0 :: 0 :: b)) = some (0 :: 0 :: b) ∧
      (EncodeToString (0 :: 0 :: b)).take 4 = ascii "0000") ∧
    EncodeToString (ascii "hello") = ascii "68656c6c6f" ∧
    DecodeString (ascii "68656c6c6f") = some (ascii "hello") := by
  refine ⟨DecodeString_EncodeToString, ?_, ?_, by decide, by decide⟩
  · intro b₁ b₂ h
    have h₁ := DecodeString_EncodeToString b₁
    rw [h, DecodeString_EncodeToString b₂] at h₁
    exact (Option.some.inj h₁).symm
  · intro b
    exact ⟨DecodeString_EncodeToString _, rfl⟩

/-- The hexadecimal form of `n` bytes: `2 * n` lower-case digits with a number sequence
of `2 * n` numbers, empty exactly when there are no bytes; `EncodeHex` never reports an
invalid digit for it. -/
theorem EncodeToString_wellformed (b : List Byte) :
    (EncodeToString b).length = 2 * b.length ∧
    (∀ c ∈ EncodeToString b, isLowerHexDigit c = true) ∧
    (∃ nums, hexNumbers (EncodeToString b) = some nums ∧ nums.length = 2 * b.length ∧
      (nums ≠ [] ↔ b ≠ [])) ∧
    (EncodeToString b ≠ [] ↔ b ≠ []) ∧
    (∀ h : Option HashID,
      EncodeHex h (EncodeToString b) ≠ .returned ([], some "invalid hex digit")) := by
  have hnum := hexNumbers_EncodeToString b
  refine ⟨length_EncodeToString b, isLowerHexDigit_of_mem_EncodeToString b,
    ⟨_, hnum, ?_, ?_⟩, ?_, ?_⟩
  · induction b with
    | nil => rfl
    | cons v src ih =>
      simp only [List.flatMap_cons, List.length_append, List.length_cons, List.length_nil] at *
      have := ih (hexNumbers_EncodeToString src)
      omega
  · cases b <;> simp
  · cases b <;> simp [EncodeToString]
  · intro h
    unfold EncodeHex
    rw [hnum]
    simp only
    split
    · intro hc; injection hc with hc; injection hc with _ hc; injection hc with hc
      exact absurd hc (by decide)
    · cases h with
      | none => simp
      | some codec =>
        have h2 : (encodeRunes codec
            (b.flatMap (fun v => [16 + v.val / 16, 16 + v.val % 16]))).2 = none := by
          unfold encodeRunes
          rw [if_neg (by assumption)]
        simp only [Encode, h2]
        intro hc; injection hc with hc; injection hc with _ hc
        exact absurd hc (by simp)

/-- C9: when the configuration is read without error, `Read` makes one call of
`EncodeHex`, and the string it hands over is the hexadecimal form of the bytes of
`encode_value`: for a value of `n` bytes it has exactly `2 * n` characters, all of them
in `0-9a-f`, so it always has a number sequence (the invalid-digit error cannot occur),
of `2 * n` numbers; string and number sequence are non-empty exactly when the value is.
The outcome of `Read` is the outcome of that call, for every package. -/
theorem Read_hex_argument_wellformed {Client Codec Err : Type}
    (lib : HashidsLib Codec Err) (d : HashIdDataSource Client) (req : ReadRequest)
    (resp : ReadResponse)
    (hcfg : Diagnostics.HasError (resp.Diagnostics ++ req.Config.Get.1) = false) :
    ∃ hex : GoString,
      Read lib d req resp =
        (match lib.EncodeHex (lib.NewWithData (readData lib req.Config.Get.2)).1 hex with
         | .panicked => .panicked
         | .returned r =>
           .returned { State := some { req.Config.Get.2 with HashId := TfString.value r.1 },
                       Diagnostics := resp.Diagnostics ++ req.Config.Get.1 }) ∧
      hex = EncodeToString req.Config.Get.2.EncodeValue.ValueString ∧
      hex.length = 2 * req.Config.Get.2.EncodeValue.ValueString.length ∧
      (∀ c ∈ hex, isLowerHexDigit c = true) ∧
      (hex ≠ [] ↔ req.Config.Get.2.EncodeValue.ValueString ≠ []) ∧
      (∃ nums, hexNumbers hex = some nums ∧
        nums.length = 2 * req.Config.Get.2.EncodeValue.ValueString.length ∧
        (nums ≠ [] ↔ req.Config.Get.2.EncodeValue.ValueString ≠ [])) ∧
      (∀ h : Option HashID, EncodeHex h hex ≠ .returned ([], some "invalid hex digit")) := by
  obtain ⟨h1, h2, h3, h4, h5⟩ :=
    EncodeToString_wellformed req.Config.Get.2.EncodeValue.ValueString
  exact ⟨_, Read_of_config_ok lib d req resp hcfg, rfl, h1, h2, h4, h3, h5⟩

set_option maxRecDepth 100000 in
/-- C9 at a concrete input, with the package that hands back the string it is given:
for the value "hello" (5 bytes) the string that reaches `EncodeHex` is "68656c6c6f" (10
characters), and for the empty value it is the empty string. -/
theorem Read_hex_argument_wellformed_witness :
    (∃ hex : GoString,
      Read echoHex (NewHashIdDataSource Unit)
          (configOf DefaultAlphabet 0 [] (ascii "hello")) freshResponse =
        (match echoHex.EncodeHex (echoHex.NewWithData
            (readData echoHex (configOf DefaultAlphabet 0 [] (ascii "hello")).Config.Get.2)).1
            hex with
         | .panicked => .panicked
         | .returned r =>
           .returned { State := some { (configOf DefaultAlphabet 0 [] (ascii "hello")).Config.Get.2
                                       with HashId := TfString.value r.1 },
                       Diagnostics := [] }) ∧
      hex = EncodeToString (ascii "hello") ∧
      hex.length = 2 * (ascii "hello").length ∧
      (∀ c ∈ hex, isLowerHexDigit c = true) ∧
      (hex ≠ [] ↔ ascii "hello" ≠ []) ∧
      (∃ nums, hexNumbers hex = some nums ∧ nums.length = 2 * (ascii "hello").length ∧
        (nums ≠ [] ↔ ascii "hello" ≠ [])) ∧
      (∀ h : Option HashID, EncodeHex h hex ≠ .returned ([], some "invalid hex digit"))) ∧
    writtenHashId (Read echoHex (NewHashIdDataSource Unit)
        (configOf DefaultAlphabet 0 [] (ascii "hello")) freshResponse)
      = .returned (some (.value (ascii "68656c6c6f"))) ∧
    writtenHashId (Read echoHex (NewHashIdDataSource Unit)
        (configOf DefaultAlphabet 0 [] []) freshResponse)
      = .returned (some (.value [])) :=
  ⟨Read_hex_argument_wellformed echoHex (NewHashIdDataSource Unit)
     (configOf DefaultAlphabet 0 [] (ascii "hello")) freshResponse (by decide),
   by decide, by decide⟩

/-! ## Where `Read` departs from the specification -/

/-- Whatever the package does, a response of `Read` for a configuration read without
error carries no diagnostic of its own: the errors of `NewWithData` and `EncodeHex` are
dropped, and a state is written. -/
theorem Read_drops_library_errors {Client HashID Err : Type} (lib : HashidsLib HashID Err)
    (d : HashIdDataSource Client) (req : ReadRequest) (resp : ReadResponse) (r : ReadResponse)
    (hcfg : Diagnostics.HasError (resp.Diagnostics ++ req.Config.Get.1) = false)
    (hr : Read lib d req resp = .returned r) :
    r.Diagnostics = resp.Diagnostics ++ req.Config.Get.1 ∧ r.State ≠ none := by
  rw [Read_of_config_ok lib d req resp hcfg] at hr
  split at hr
  · exact absurd hr (by simp)
  · injection hr with hr
    subst hr
    exact ⟨rfl, by simp⟩

set_option maxRecDepth 100000 in
/-- C2, the code at a failing input: default alphabet, no salt, `min_length` 100, value
"hello".  `Read` writes a `hash_id` of 20 characters, fewer than the 100 configured. -/
theorem Read_min_length_not_honoured :
    Read hashids (NewHashIdDataSource Unit)
        (configOf DefaultAlphabet 100 [] (ascii "hello")) freshResponse
      = .returned { State := some { Alphabet := .value DefaultAlphabet,
                                    MinLength := .value 100, Salt := .value [],
                                    EncodeValue := .value (ascii "hello"),
                                    HashId := .value (ascii "LwF2INFNCZF0coFZcKFo") },
                    Diagnostics := [] } ∧
    (ascii "LwF2INFNCZF0coFZcKFo").length = 20 := by
  constructor <;> decide

set_option maxRecDepth 100000 in
/-- C3, the code at failing inputs.  With a valid alphabet and an empty value
`EncodeHex` returns an error, and with the alphabet "abc" and an empty value both
`NewWithData` and `EncodeHex` return an error; each time `Read` returns a response
without any diagnostic whose state holds the empty `hash_id`. -/
theorem Read_silently_empty :
    hashids.EncodeHex (hashids.NewWithData
        { Alphabet := DefaultAlphabet, MinLength := 0, Salt := [] }).1 (EncodeToString [])
      = .returned ([], some "encoding empty array of numbers makes no sense") ∧
    Read hashids (NewHashIdDataSource Unit) (configOf DefaultAlphabet 0 [] []) freshResponse
      = .returned { State := some { Alphabet := .value DefaultAlphabet, MinLength := .value 0,
                                    Salt := .value [], EncodeValue := .value [],
                                    HashId := .value [] },
                    Diagnostics := [] } ∧
    hashids.NewWithData { Alphabet := ascii "abc", MinLength := 0, Salt := [] }
      = (none, some "alphabet must contain at least 16 characters") ∧
    Read hashids (NewHashIdDataSource Unit) (configOf (ascii "abc") 0 [] []) freshResponse
      = .returned { State := some { Alphabet := .value (ascii "abc"), MinLength := .value 0,
                                    Salt := .value [], EncodeValue := .value [],
                                    HashId := .value [] },
                    Diagnostics := [] } := by
  refine ⟨?_, ?_, ?_, ?_⟩ <;> decide

set_option maxRecDepth 100000 in
/-- C4, the code at failing inputs.  For the alphabet "abc" (too short) and for an
alphabet of 17 characters with a duplicate, `NewWithData` returns a nil codec with an
error; `Read` calls `EncodeHex` on the nil codec all the same and panics for the value
"hello". -/
theorem Read_invalid_alphabet_panics :
    hashids.NewWithData { Alphabet := ascii "abc", MinLength := 0, Salt := [] }
      = (none, some "alphabet must contain at least 16 characters") ∧
    Read hashids (NewHashIdDataSource Unit)
        (configOf (ascii "abc") 0 [] (ascii "hello")) freshResponse = .panicked ∧
    hashids.NewWithData { Alphabet := ascii "aabcdefghijklmnop", MinLength := 0, Salt := [] }
      = (none, some "duplicate character in alphabet") ∧
    Read hashids (NewHashIdDataSource Unit)
        (configOf (ascii "aabcdefghijklmnop") 0 [] (ascii "hello")) freshResponse
      = .panicked := by
  refine ⟨?_, ?_, ?_, ?_⟩ <;> decide

/-! ## The model against the reference vectors -/

set_option maxRecDepth 100000 in
/-- The codec model reproduces reference vectors of the Hashids algorithm for the
default alphabet: with salt "this is my salt", `[1, 2, 3]` encodes to `laHquq` and
`[12345]` to `NkK9`; without salt `[1, 2, 3]` encodes to `o2fXhV`. -/
theorem Encode_reference_vectors :
    Encode (newCodec (runes DefaultAlphabet) (runes (ascii "this is my salt")) 0) [1, 2, 3]
      = (ascii "laHquq", none) ∧
    Encode (newCodec (runes DefaultAlphabet) (runes (ascii "this is my salt")) 0) [12345]
      = (ascii "NkK9", none) ∧
    Encode (newCodec (runes DefaultAlphabet) [] 0) [1, 2, 3] = (ascii "o2fXhV", none) ∧
    Decode (newCodec (runes DefaultAlphabet) (runes (ascii "this is my salt")) 0)
        (ascii "laHquq")
      = ([1, 2, 3], none) := by
  refine ⟨?_, ?_, ?_, ?_⟩ <;> decide

/-! ## Strings and characters -/

/-- The code of a character is a Unicode scalar value. -/
theorem Rune.toNat_valid (c : Rune) :
    c.toNat < 0xD800 ∨ (0xDFFF < c.toNat ∧ c.toNat < 0x110000) := c.valid

/-- Reading the UTF-8 bytes of a character gives the character and its width. -/
theorem decodeRune_encodeRune (c : Rune) (rest : GoString) :
    decodeRune (encodeRune c ++ rest) = (c, (encodeRune c).length) := by
  have hv := Rune.toNat_valid c
  have hc := Char.ofNat_toNat c
  unfold encodeRune
  by_cases h1 : c.toNat < 0x80
  · rw [if_pos h1]
    have hb : (Fin.ofNat c.toNat : Byte).val = c.toNat := by
      show c.toNat % 256 = c.toNat
      omega
    simp only [List.cons_append, List.nil_append, decodeRune, hb, if_pos h1, hc,
      List.length_singleton]
  · rw [if_neg h1]
    by_cases h2 : c.toNat < 0x800
    · rw [if_pos h2]
      have hb0 : (Fin.ofNat (0xC0 + c.toNat / 64) : Byte).val = 0xC0 + c.toNat / 64 := by
        show (0xC0 + c.toNat / 64) % 256 = _
        omega
      have hb1 : (Fin.ofNat (0x80 + c.toNat % 64) : Byte).val = 0x80 + c.toNat % 64 := by
        show (0x80 + c.toNat % 64) % 256 = _
        omega
      have hn : (0xC0 + c.toNat / 64) % 32 * 64 + (0x80 + c.toNat % 64) % 64 = c.toNat := by
        omega
      simp only [List.cons_append, List.nil_append, decodeRune, hb0, hb1]
      rw [if_neg (by omega), if_neg (by omega), if_pos (by omega), if_pos (by omega), hn, hc]
      rfl
    · rw [if_neg h2]
      by_cases h3 : c.toNat < 0x10000
      · rw [if_pos h3]
        have hb0 : (Fin.ofNat (0xE0 + c.toNat / 4096) : Byte).val = 0xE0 + c.toNat / 4096 := by
          show (0xE0 + c.toNat / 4096) % 256 = _
          omega
        have hb1 : (Fin.ofNat (0x80 + c.toNat / 64 % 64) : Byte).val
            = 0x80 + c.toNat / 64 % 64 := by
          show (0x80 + c.toNat / 64 % 64) % 256 = _
          omega
        have hb2 : (Fin.ofNat (0x80 + c.toNat % 64) : Byte).val = 0x80 + c.toNat % 64 := by
          show (0x80 + c.toNat % 64) % 256 = _
          omega
        have hn : (0xE0 + c.toNat / 4096) % 16 * 4096 + (0x80 + c.toNat / 64 % 64) % 64 * 64
            + (0x80 + c.toNat % 64) % 64 = c.toNat := by
          omega
        simp only [List.cons_append, List.nil_append, decodeRune, hb0, hb1, hb2]
        rw [if_neg (by omega), if_neg (by omega), if_neg (by omega), if_pos (by omega),
          if_pos (by refine ⟨?_, ?_, ?_, ?_⟩ <;> (try split) <;> omega), hn, hc]
        rfl
      · rw [if_neg h3]
        have hb0 : (Fin.ofNat (0xF0 + c.toNat / 262144) : Byte).val
            = 0xF0 + c.toNat / 262144 := by
          show (0xF0 + c.toNat / 262144) % 256 = _
          omega
        have hb1 : (Fin.ofNat (0x80 + c.toNat / 4096 % 64) : Byte).val
            = 0x80 + c.toNat / 4096 % 64 := by
          show (0x80 + c.toNat / 4096 % 64) % 256 = _
          omega
        have hb2 : (Fin.ofNat (0x80 + c.toNat / 64 % 64) : Byte).val
            = 0x80 + c.toNat / 64 % 64 := by
          show (0x80 + c.toNat / 64 % 64) % 256 = _
          omega
        have hb3 : (Fin.ofNat (0x80 + c.toNat % 64) : Byte).val = 0x80 + c.toNat % 64 := by
          show (0x80 + c.toNat % 64) % 256 = _
          omega
        have hn : (0xF0 + c.toNat / 262144) % 8 * 262144
            + (0x80 + c.toNat / 4096 % 64) % 64 * 4096
            + (0x80 + c.toNat / 64 % 64) % 64 * 64 + (0x80 + c.toNat % 64) % 64 = c.toNat := by
          omega
        simp only [List.cons_append, List.nil_append, decodeRune, hb0, hb1, hb2, hb3]
        rw [if_neg (by omega), if_neg (by omega), if_neg (by omega), if_neg (by omega),
          if_pos (by omega),
          if_pos (by refine ⟨?_, ?_, ?_, ?_, ?_, ?_⟩ <;> (try split) <;> omega), hn, hc]
        rfl

/-- The UTF-8 form of a character has one to four bytes. -/
theorem length_encodeRune (c : Rune) :
    1 ≤ (encodeRune c).length ∧ (encodeRune c).length ≤ 4 := by
  unfold encodeRune
  split
  · simp
  · split
    · simp
    · split <;> simp

/-- Reading back the characters of a written string, on enough fuel. -/
theorem runesLoop_runesToString (rs : List Rune) :
    ∀ fuel, (runesToString rs).length ≤ fuel → runesLoop fuel (runesToString rs) = rs := by
  induction rs with
  | nil =>
    intro fuel _
    cases fuel <;> rfl
  | cons c rs ih =>
    intro fuel hfuel
    have hlen := length_encodeRune c
    have hdec := decodeRune_encodeRune c (runesToString rs)
    have hcons : runesToString (c :: rs) = encodeRune c ++ runesToString rs := rfl
    rw [hcons] at hfuel ⊢
    rw [List.length_append] at hfuel
    obtain ⟨fuel, rfl⟩ : ∃ f, fuel = f + 1 := ⟨fuel - 1, by omega⟩
    obtain ⟨b, s, hbs⟩ : ∃ b s, encodeRune c ++ runesToString rs = b :: s := by
      cases hcase : encodeRune c with
      | nil => rw [hcase] at hlen; simp at hlen
      | cons b t => exact ⟨b, t ++ runesToString rs, rfl⟩
    rw [hbs] at hdec ⊢
    simp only [runesLoop, hdec]
    rw [← hbs, List.drop_left, ih fuel (by omega)]

/-- The characters of a written string are the characters written: Go's
`[]rune(string(rs))` is `rs`. -/
theorem runes_runesToString (rs : List Rune) : runes (runesToString rs) = rs :=
  runesLoop_runesToString rs _ (le_refl _)

/-! ## The shuffle is a permutation -/

/-- Exchanging two positions inside a list permutes it. -/
theorem swap_perm (l : List Rune) (i j : Nat) (hi : i < l.length) (hj : j < l.length) :
    (swap l i j).Perm l := by
  rw [List.perm_iff_count]
  intro c
  unfold swap
  rw [List.getD_eq_getElem _ _ hj, List.getD_eq_getElem _ _ hi]
  have hj2 : j < (l.set i l[j]).length := by simpa using hj
  rw [List.count_set _ _ _ _ hj2, List.count_set _ _ _ _ hi]
  have hci : (if (l[i] == c) = true then 1 else 0) ≤ l.count c := by
    split
    · have : l[i] = c := by simpa using ‹(l[i] == c) = true›
      subst this
      exact List.count_pos_iff.mpr (List.getElem_mem hi)
    · omega
  have hcj : (if (l[j] == c) = true then 1 else 0) ≤ l.count c := by
    split
    · have : l[j] = c := by simpa using ‹(l[j] == c) = true›
      subst this
      exact List.count_pos_iff.mpr (List.getElem_mem hj)
    · omega
  by_cases hij : i = j
  · subst hij
    simp only [List.getElem_set_self]
    omega
  · rw [List.getElem_set_ne hij]
    by_cases h1 : l[i] = c <;> by_cases h2 : l[j] = c
    · simp only [h1, h2, beq_self_eq_true, if_true] at *
      omega
    · have h2b : (l[j] == c) = false := by simpa using h2
      simp only [h1, h2b, beq_self_eq_true, if_true] at *
      simp
      omega
    · have h1b : (l[i] == c) = false := by simpa using h1
      simp only [h2, h1b, beq_self_eq_true, if_true] at *
      simp
    · have h1b : (l[i] == c) = false := by simpa using h1
      have h2b : (l[j] == c) = false := by simpa using h2
      simp [h1b, h2b]

/-- The shuffle loop permutes the alphabet. -/
theorem shuffleLoop_perm (salt : List Rune) :
    ∀ (i v p : Nat) (alphabet : List Rune), i < alphabet.length →
      (shuffleLoop salt i v p alphabet).Perm alphabet
  | 0, _, _, _, _ => List.Perm.refl _
  | i + 1, v, p, alphabet, hi => by
    simp only [shuffleLoop]
    have hj : ((salt.getD v RuneError).toNat + v + (p + (salt.getD v RuneError).toNat)) % (i + 1) < alphabet.length :=
      lt_trans (Nat.mod_lt _ (Nat.succ_pos i)) hi
    have hs := swap_perm alphabet (i + 1) _ hi hj
    have hlen := hs.length_eq
    exact (shuffleLoop_perm salt i _ _ _ (by omega)).trans hs

/-- The salt-driven shuffle permutes the alphabet. -/
theorem consistentShuffle_perm (alphabet salt : List Rune) :
    (consistentShuffle alphabet salt).Perm alphabet := by
  unfold consistentShuffle
  split
  · exact List.Perm.refl _
  · cases alphabet with
    | nil => cases hs : salt.length <;> simp [shuffleLoop]
    | cons a l => exact shuffleLoop_perm salt _ 0 0 _ (by simp)

/-! ## Chunks: `hash` and `unhash` -/

/-- The chunk reader `unhash` folds `unhashStep` over the chunk. -/
theorem unhash_eq_foldl (input alphabet : List Rune) :
    unhash input alphabet = input.foldl (unhashStep alphabet) (some 0) := rfl

/-- The character of a digit is read back as the digit. -/
theorem unhashStep_getD (alphabet : List Rune) (hnd : alphabet.Nodup) (r k : Nat)
    (hk : k < alphabet.length) :
    unhashStep alphabet (some r) (alphabet.getD k RuneError) = some (r * alphabet.length + k) := by
  simp only [unhashStep]
  rw [List.getD_eq_getElem _ _ hk, List.indexOf_getElem hnd k hk, if_pos hk]

/-- Reading the digits that `hashLoop` puts in front of `acc` yields the number. -/
theorem foldl_unhashStep_hashLoop (alphabet : List Rune) (hnd : alphabet.Nodup)
    (hlen : 2 ≤ alphabet.length) :
    ∀ (input fuel : Nat) (acc : List Rune), input < fuel →
      (hashLoop alphabet fuel input acc).foldl (unhashStep alphabet) (some 0) =
        acc.foldl (unhashStep alphabet) (some input) := by
  intro input
  induction input using Nat.strong_induction_on with
  | _ input ih =>
    intro fuel acc hfuel
    obtain ⟨fuel, rfl⟩ : ∃ f, fuel = f + 1 := ⟨fuel - 1, by omega⟩
    have hpos : 0 < alphabet.length := by omega
    have hmod : input % alphabet.length < alphabet.length := Nat.mod_lt _ hpos
    simp only [hashLoop]
    split
    · rename_i hq
      have hlt : input < alphabet.length := (Nat.div_eq_zero_iff hpos).mp hq
      rw [List.foldl_cons, unhashStep_getD alphabet hnd 0 _ hmod, Nat.mod_eq_of_lt hlt]
      simp
    · rename_i hq
      have hge : alphabet.length ≤ input := by
        by_contra hc
        exact hq (Nat.div_eq_of_lt (by omega))
      have hdiv : input / alphabet.length < input := Nat.div_lt_self (by omega) (by omega)
      rw [ih _ hdiv fuel _ (by omega), List.foldl_cons,
        unhashStep_getD alphabet hnd _ _ hmod, Nat.div_add_mod']

/-- Decoding the chunk of a number gives the number. -/
theorem unhash_hash (alphabet : List Rune) (hnd : alphabet.Nodup) (hlen : 2 ≤ alphabet.length)
    (n : Nat) : unhash (hash n alphabet) alphabet = some n := by
  rw [unhash_eq_foldl, hash, foldl_unhashStep_hashLoop alphabet hnd hlen n (n + 1) [] (by omega)]
  rfl

/-- Every character `hashLoop` adds is a character of the alphabet. -/
theorem mem_hashLoop (alphabet : List Rune) (hpos : 0 < alphabet.length) :
    ∀ (fuel input : Nat) (acc : List Rune) (c : Rune),
      c ∈ hashLoop alphabet fuel input acc → c ∈ alphabet ∨ c ∈ acc
  | 0, _, _, _, hc => Or.inr hc
  | fuel + 1, input, acc, c, hc => by
    have hmod : input % alphabet.length < alphabet.length := Nat.mod_lt _ hpos
    have hmem : alphabet.getD (input % alphabet.length) RuneError ∈ alphabet := by
      rw [List.getD_eq_getElem _ _ hmod]; exact List.getElem_mem hmod
    simp only [hashLoop] at hc
    split at hc
    · rcases List.mem_cons.mp hc with rfl | h
      · exact Or.inl hmem
      · exact Or.inr h
    · rcases mem_hashLoop alphabet hpos fuel _ _ c hc with h | h
      · exact Or.inl h
      · rcases List.mem_cons.mp h with rfl | h
        · exact Or.inl hmem
        · exact Or.inr h

/-- A chunk consists of alphabet characters. -/
theorem mem_hash (alphabet : List Rune) (hpos : 0 < alphabet.length) (n : Nat) (c : Rune)
    (hc : c ∈ hash n alphabet) : c ∈ alphabet := by
  rcases mem_hashLoop alphabet hpos _ _ _ c hc with h | h
  · exact h
  · simp at h

/-! ## Encoding and decoding a number sequence -/

/-- The working alphabet of a well-formed codec has no character twice. -/
theorem HashID.WellFormed.nodup_alphabet {h : HashID} (hwf : h.WellFormed) :
    h.alphabet.Nodup :=
  ((List.nodup_append.mp ((List.nodup_append.mp hwf.1).2.1)).2.1)

/-- No alphabet character of a well-formed codec is a separator. -/
theorem HashID.WellFormed.not_mem_seps {h : HashID} (hwf : h.WellFormed) {c : Rune}
    (hc : c ∈ h.alphabet) : c ∉ h.seps := fun hs =>
  (List.nodup_append.mp ((List.nodup_append.mp hwf.1).2.1)).2.2 hs hc

/-- No alphabet character or separator of a well-formed codec is a guard. -/
theorem HashID.WellFormed.not_mem_guards {h : HashID} (hwf : h.WellFormed) {c : Rune}
    (hc : c ∈ h.alphabet ∨ c ∈ h.seps) : c ∉ h.guards := fun hg =>
  (List.nodup_append.mp hwf.1).2.2 hg (List.mem_append.mpr hc.symm)

/-- The separator `Encode` picks is one of the separators. -/
theorem getD_seps_mem {h : HashID} (hwf : h.WellFormed) (m : Nat) :
    h.seps.getD (m % h.seps.length) RuneError ∈ h.seps := by
  have hlt : m % h.seps.length < h.seps.length := Nat.mod_lt _ hwf.2.2
  rw [List.getD_eq_getElem _ _ hlt]
  exact List.getElem_mem hlt

/-- The per-number permutation permutes the alphabet. -/
theorem lotteryShuffle_perm (salt : List Rune) (lottery : Rune) (alphabet : List Rune) :
    (lotteryShuffle salt lottery alphabet).Perm alphabet :=
  consistentShuffle_perm _ _

/-- The loop `encodeLoop` on the last number: its chunk. -/
theorem encodeLoop_single (h : HashID) (lottery : Rune) (i n : Nat) (alphabet : List Rune) :
    encodeLoop h lottery i [n] alphabet =
      (hash n (lotteryShuffle h.salt lottery alphabet),
        lotteryShuffle h.salt lottery alphabet) := rfl

/-- The loop `encodeLoop` on a number that has a successor: chunk, separator, rest. -/
theorem encodeLoop_cons_cons (h : HashID) (lottery : Rune) (i n m : Nat) (rest : List Nat)
    (alphabet : List Rune) :
    (encodeLoop h lottery i (n :: m :: rest) alphabet).1 =
      hash n (lotteryShuffle h.salt lottery alphabet) ++
        h.seps.getD
            (n % (((hash n (lotteryShuffle h.salt lottery alphabet)).headD RuneError).toNat + i)
              % h.seps.length) RuneError ::
          (encodeLoop h lottery (i + 1) (m :: rest)
            (lotteryShuffle h.salt lottery alphabet)).1 := rfl

/-- The loop `decodeLoop` on a chunk. -/
theorem decodeLoop_cons (h : HashID) (lottery : Rune) (subHash : List Rune)
    (rest : List (List Rune)) (alphabet : List Rune) :
    decodeLoop h lottery (subHash :: rest) alphabet =
      match unhash subHash (lotteryShuffle h.salt lottery alphabet) with
      | none => none
      | some number =>
        match decodeLoop h lottery rest (lotteryShuffle h.salt lottery alphabet) with
        | none => none
        | some numbers => some (number :: numbers) := rfl

/-- The text `encodeLoop` produces consists of alphabet characters and separators, and
splitting it on separators and decoding the chunks gives the numbers back. -/
theorem decodeLoop_encodeLoop {h : HashID} (hwf : h.WellFormed) (lottery : Rune) :
    ∀ (numbers : List Nat) (i : Nat) (alphabet : List Rune),
      numbers ≠ [] → alphabet.Perm h.alphabet →
      (∀ c ∈ (encodeLoop h lottery i numbers alphabet).1, c ∈ h.alphabet ∨ c ∈ h.seps) ∧
      decodeLoop h lottery
        (splitRunes (encodeLoop h lottery i numbers alphabet).1 h.seps) alphabet
        = some numbers
  | [], _, _, hne, _ => absurd rfl hne
  | n :: rest, i, alphabet, _, hperm => by
    have hperm2 : (lotteryShuffle h.salt lottery alphabet).Perm h.alphabet :=
      (lotteryShuffle_perm _ _ _).trans hperm
    have hnd := hperm2.nodup_iff.mpr hwf.nodup_alphabet
    have hlen : 2 ≤ (lotteryShuffle h.salt lottery alphabet).length := by
      rw [hperm2.length_eq]; exact hwf.2.1
    have hchunk : ∀ c ∈ hash n (lotteryShuffle h.salt lottery alphabet), c ∈ h.alphabet :=
      fun c hc => hperm2.mem_iff.mp (mem_hash _ (by omega) n c hc)
    have hnosep : ∀ c ∈ hash n (lotteryShuffle h.salt lottery alphabet),
        ¬ (decide (c ∈ h.seps) = true) := fun c hc => by
      simpa using hwf.not_mem_seps (hchunk c hc)
    cases rest with
    | nil =>
      rw [encodeLoop_single]
      refine ⟨fun c hc => Or.inl (hchunk c hc), ?_⟩
      rw [splitRunes, List.splitOnP_eq_single _ _ hnosep, decodeLoop_cons,
        unhash_hash _ hnd hlen]
      rfl
    | cons m rest =>
      have ih := decodeLoop_encodeLoop hwf lottery (m :: rest) (i + 1) _ (by simp) hperm2
      rw [encodeLoop_cons_cons]
      constructor
      · intro c hc
        rcases List.mem_append.mp hc with hc | hc
        · exact Or.inl (hchunk c hc)
        · rcases List.mem_cons.mp hc with rfl | hc
          · exact Or.inr (getD_seps_mem hwf _)
          · exact ih.1 c hc
      · have ih2 := ih.2
        rw [splitRunes] at ih2
        rw [splitRunes, List.splitOnP_first _ _ hnosep _ (by simpa using getD_seps_mem hwf _),
          decodeLoop_cons, unhash_hash _ hnd hlen]
        simp only [ih2]

/-! ## `Decode` inverts `Encode` -/

/-- Without a minimum length the characters of `Encode` are the lottery character
followed by the chunks and separators: no padding takes place. -/
theorem encodeRunes_of_minLength_zero (h : HashID) (hmin : h.minLength = 0)
    (numbers : List Nat) (hne : numbers ≠ []) :
    encodeRunes h numbers =
      (h.alphabet.getD (numbersHash 0 numbers % h.alphabet.length) RuneError ::
        (encodeLoop h (h.alphabet.getD (numbersHash 0 numbers % h.alphabet.length) RuneError) 0
          numbers h.alphabet).1, none) := by
  have hlen : ¬ numbers.length = 0 := by
    cases numbers with
    | nil => exact absurd rfl hne
    | cons a l => simp
  unfold encodeRunes
  rw [if_neg hlen, hmin]
  simp only [Nat.not_lt_zero, if_false]
  rfl

/-- For a well-formed codec without minimum length, decoding the characters of an
encoded non-empty number sequence returns the sequence. -/
theorem decodeRunes_encodeRunes {h : HashID} (hwf : h.WellFormed) (hmin : h.minLength = 0)
    (numbers : List Nat) (hne : numbers ≠ []) :
    decodeRunes h (encodeRunes h numbers).1 = some numbers := by
  have henc := encodeRunes_of_minLength_zero h hmin numbers hne
  have hpos : numbersHash 0 numbers % h.alphabet.length < h.alphabet.length :=
    Nat.mod_lt _ (by have := hwf.2.1; omega)
  have hlot : h.alphabet.getD (numbersHash 0 numbers % h.alphabet.length) RuneError
      ∈ h.alphabet := by
    rw [List.getD_eq_getElem _ _ hpos]; exact List.getElem_mem hpos
  have hloop := decodeLoop_encodeLoop hwf
    (h.alphabet.getD (numbersHash 0 numbers % h.alphabet.length) RuneError) numbers 0
    h.alphabet hne (List.Perm.refl _)
  have hnoguard : ∀ c ∈ (encodeRunes h numbers).1, ¬ (decide (c ∈ h.guards) = true) := by
    intro c hc
    rw [henc] at hc
    have : c ∈ h.alphabet ∨ c ∈ h.seps := by
      rcases List.mem_cons.mp hc with rfl | hc
      · exact Or.inl hlot
      · exact hloop.1 c hc
    simpa using hwf.not_mem_guards this
  unfold decodeRunes
  rw [splitRunes, List.splitOnP_eq_single _ _ hnoguard]
  simp only [List.length_singleton, OfNat.one_ne_ofNat, or_self, if_false, List.getD_cons_zero]
  rw [henc]
  exact hloop.2

/-- For a well-formed codec without minimum length, decoding an encoded non-empty number
sequence returns the sequence, without error. -/
theorem Decode_Encode {h : HashID} (hwf : h.WellFormed) (hmin : h.minLength = 0)
    (numbers : List Nat) (hne : numbers ≠ []) :
    Decode h (Encode h numbers).1 = (numbers, none) := by
  unfold Decode
  have hrunes : runes (Encode h numbers).1 = (encodeRunes h numbers).1 :=
    runes_runesToString _
  rw [hrunes, decodeRunes_encodeRunes hwf hmin numbers hne]
  exact if_pos rfl

/-! ## A constructed codec is well formed -/

/-- The reserved separators are distinct. -/
theorem sepsOriginal_nodup : sepsOriginal.Nodup := by decide

/-- Reserving the separators of an alphabet of distinct characters leaves separators
and remaining characters distinct. -/
theorem reserve_nodup (alphabet : List Rune) (hnd : alphabet.Nodup) :
    (sepsOriginal.filter (fun c => decide (c ∈ alphabet)) ++
      alphabet.filter (fun c => decide (c ∉ sepsOriginal))).Nodup := by
  rw [List.nodup_append]
  refine ⟨sepsOriginal_nodup.filter _, hnd.filter _, ?_⟩
  intro c hs ha
  have h1 := (List.mem_filter.mp hs).1
  have h2 := (List.mem_filter.mp ha).2
  simp only [decide_not, Bool.not_eq_true', decide_eq_false_iff_not] at h2
  exact h2 h1

/-- Balancing keeps separators and alphabet distinct, and leaves a separator whenever
it leaves an alphabet character. -/
theorem balanceSeps_spec (seps alphabet : List Rune) (hnd : (seps ++ alphabet).Nodup) :
    ((balanceSeps seps alphabet).1 ++ (balanceSeps seps alphabet).2).Nodup ∧
    (1 ≤ (balanceSeps seps alphabet).2.length → 1 ≤ (balanceSeps seps alphabet).1.length) := by
  unfold balanceSeps
  by_cases hcond : seps.length = 0 ∨ 7 * seps.length < 2 * alphabet.length
  · rw [if_pos hcond]
    dsimp only
    obtain ⟨L, hL, hL2⟩ : ∃ L, (if (2 * alphabet.length + 6) / 7 = 1 then 2
        else (2 * alphabet.length + 6) / 7) = L ∧
        (L = 2 ∧ (2 * alphabet.length + 6) / 7 = 1 ∨
          L = (2 * alphabet.length + 6) / 7 ∧ (2 * alphabet.length + 6) / 7 ≠ 1) := by
      by_cases hk : (2 * alphabet.length + 6) / 7 = 1
      · exact ⟨2, if_pos hk, Or.inl ⟨rfl, hk⟩⟩
      · exact ⟨_, if_neg hk, Or.inr ⟨rfl, hk⟩⟩
    rw [hL]
    by_cases hlt : seps.length < L
    · rw [if_pos hlt]
      dsimp only
      rw [List.append_assoc, List.take_append_drop, List.length_append, List.length_take,
        List.length_drop]
      exact ⟨hnd, by omega⟩
    · rw [if_neg hlt]
      dsimp only
      rw [List.length_take]
      exact ⟨hnd.sublist ((List.take_sublist _ _).append_right _), by omega⟩
  · rw [if_neg hcond]
    dsimp only
    exact ⟨hnd, by omega⟩

/-- The codec derived from an alphabet of distinct characters that keeps at least 16
usable characters is well formed, and carries the given minimum length. -/
theorem newCodec_wellFormed (alphabet salt : List Rune) (minLength : Nat)
    (hnd : alphabet.Nodup)
    (husable : 16 ≤ (newCodec alphabet salt minLength).alphabet.length) :
    (newCodec alphabet salt minLength).WellFormed ∧
    (newCodec alphabet salt minLength).minLength = minLength := by
  have h1 := reserve_nodup alphabet hnd
  have hp := consistentShuffle_perm (sepsOriginal.filter (fun c => decide (c ∈ alphabet))) salt
  have hb := balanceSeps_spec
    (consistentShuffle (sepsOriginal.filter (fun c => decide (c ∈ alphabet))) salt)
    (alphabet.filter (fun c => decide (c ∉ sepsOriginal)))
    ((hp.append_right _).nodup_iff.mpr h1)
  unfold newCodec at husable ⊢
  simp only at husable ⊢
  generalize balanceSeps
    (consistentShuffle (sepsOriginal.filter (fun c => decide (c ∈ alphabet))) salt)
    (alphabet.filter (fun c => decide (c ∉ sepsOriginal))) = b at hb husable
  obtain ⟨hbnd, hb1⟩ := hb
  have hq := consistentShuffle_perm b.2 salt
  have hnd2 : (b.1 ++ consistentShuffle b.2 salt).Nodup :=
    (hq.append_left _).nodup_iff.mpr hbnd
  have hlen2 := hq.length_eq
  by_cases hsmall : (consistentShuffle b.2 salt).length < 3
  · rw [if_pos hsmall] at husable
    simp only at husable
    omega
  · rw [if_neg hsmall] at husable ⊢
    simp only [List.length_drop] at husable
    refine ⟨⟨?_, ?_, ?_⟩, rfl⟩
    · simp only
      have hperm : (List.take (((consistentShuffle b.2 salt).length + 11) / 12)
            (consistentShuffle b.2 salt) ++
          (b.1 ++ List.drop (((consistentShuffle b.2 salt).length + 11) / 12)
            (consistentShuffle b.2 salt))).Perm
          (b.1 ++ consistentShuffle b.2 salt) := by
        rw [← List.append_assoc]
        refine (List.perm_append_comm.append_right _).trans ?_
        rw [List.append_assoc, List.take_append_drop]
      exact hperm.nodup_iff.mpr hnd2
    · simp only [List.length_drop]; omega
    · simp only
      have := hb1 (by omega)
      omega

/-- `NewWithData` succeeds for every valid alphabet: distinct characters, no
whitespace, at least 16 usable characters after the reservation; and a non-negative
minimum length. -/
theorem NewWithData_valid (data : HashIDData) (hnd : (runes data.Alphabet).Nodup)
    (hws : ∀ c ∈ runes data.Alphabet, isSpace c = false) (hmin : 0 ≤ data.MinLength)
    (husable : 16 ≤ (newCodec (runes data.Alphabet) (runes data.Salt)
      data.MinLength.toNat).alphabet.length) :
    NewWithData data =
      (some (newCodec (runes data.Alphabet) (runes data.Salt) data.MinLength.toNat), none) := by
  unfold NewWithData minAlphabetLength
  have hany : ¬ ((runes data.Alphabet).any isSpace = true) := by
    intro hc
    obtain ⟨c, hmem, hsp⟩ := List.any_eq_true.mp hc
    rw [hws c hmem] at hsp
    exact absurd hsp (by decide)
  rw [if_neg (by simpa using hnd), if_neg hany, if_neg (by omega), if_neg (by omega)]

/-! ## The hash id of `Read` decodes to the hexadecimal form of the value -/

/-- The digits of the number sequence of a hexadecimal form are the hexadecimal form. -/
theorem numbersHex_flatMap (b : List Byte) :
    numbersHex (b.flatMap (fun v => [16 + v.val / 16, 16 + v.val % 16])) =
      some (EncodeToString b) := by
  induction b with
  | nil => rfl
  | cons v src ih =>
    have hv := v.isLt
    have h1 : 16 ≤ 16 + v.val / 16 ∧ 16 + v.val / 16 ≤ 31 := by omega
    have h2 : 16 ≤ 16 + v.val % 16 ∧ 16 + v.val % 16 ≤ 31 := by omega
    show numbersHex ((16 + v.val / 16) :: (16 + v.val % 16) ::
      src.flatMap (fun v => [16 + v.val / 16, 16 + v.val % 16])) = _
    simp only [numbersHex, if_pos h1, if_pos h2, ih, EncodeToString, Nat.add_sub_cancel_left]

/-- For a well-formed codec without minimum length, `EncodeHex` of the hexadecimal form
of a non-empty byte string returns a non-empty hash id without error, and `DecodeHex`
of that hash id returns the hexadecimal form. -/
theorem DecodeHex_EncodeHex {h : HashID} (hwf : h.WellFormed) (hmin : h.minLength = 0)
    (b : List Byte) (hne : b ≠ []) :
    ∃ hashid, EncodeHex (some h) (EncodeToString b) = .returned (hashid, none) ∧
      hashid ≠ [] ∧ DecodeHex h hashid = (EncodeToString b, none) := by
  have hnum := hexNumbers_EncodeToString b
  have hnumne : b.flatMap (fun v => [16 + v.val / 16, 16 + v.val % 16]) ≠ [] := by
    cases b with
    | nil => exact absurd rfl hne
    | cons v src => simp
  have hlen : ¬ (b.flatMap (fun v => [16 + v.val / 16, 16 + v.val % 16])).length = 0 := by
    intro hc; exact hnumne (List.length_eq_zero.mp hc)
  have henc := encodeRunes_of_minLength_zero h hmin _ hnumne
  have hdec := Decode_Encode hwf hmin _ hnumne
  refine ⟨(Encode h (b.flatMap (fun v => [16 + v.val / 16, 16 + v.val % 16]))).1,
    ?_, ?_, ?_⟩
  · unfold EncodeHex
    rw [hnum]
    simp only [if_neg hlen]
    unfold Encode
    rw [henc]
  · unfold Encode
    rw [henc]
    intro hc
    have hl := length_encodeRune
      (h.alphabet.getD (numbersHash 0
        (b.flatMap (fun v => [16 + v.val / 16, 16 + v.val % 16])) % h.alphabet.length)
        RuneError)
    have hlen0 := congrArg List.length hc
    simp only [runesToString, List.flatMap_cons, List.length_append, List.length_nil] at hlen0
    omega
  · unfold DecodeHex
    rw [hdec]
    simp only [numbersHex_flatMap]

/-- C5: for every valid alphabet (distinct characters, no whitespace, at least 16 usable
characters left after separators and guards are reserved), every salt and every
non-empty value, `Read` writes a non-empty `hash_id`, and `DecodeHex` under the codec of
that alphabet and salt returns, without error, exactly the hexadecimal form of the bytes
of the value. -/
theorem Read_hash_id_decodes {Client : Type} (d : HashIdDataSource Client)
    (req : ReadRequest) (resp : ReadResponse)
    (hcfg : Diagnostics.HasError (resp.Diagnostics ++ req.Config.Get.1) = false)
    (hnd : (runes req.Config.Get.2.Alphabet.ValueString).Nodup)
    (hws : ∀ c ∈ runes req.Config.Get.2.Alphabet.ValueString, isSpace c = false)
    (husable : 16 ≤ (newCodec (runes req.Config.Get.2.Alphabet.ValueString)
      (runes req.Config.Get.2.Salt.ValueString) 0).alphabet.length)
    (hne : req.Config.Get.2.EncodeValue.ValueString ≠ []) :
    ∃ codec hashid,
      NewWithData { Alphabet := req.Config.Get.2.Alphabet.ValueString, MinLength := 0,
                    Salt := req.Config.Get.2.Salt.ValueString } = (some codec, none) ∧
      Read hashids d req resp =
        .returned { State := some { Alphabet := req.Config.Get.2.Alphabet,
                                    MinLength := req.Config.Get.2.MinLength,
                                    Salt := req.Config.Get.2.Salt,
                                    EncodeValue := req.Config.Get.2.EncodeValue,
                                    HashId := TfString.value hashid },
                    Diagnostics := resp.Diagnostics ++ req.Config.Get.1 } ∧
      hashid ≠ [] ∧
      DecodeHex codec hashid =
        (EncodeToString req.Config.Get.2.EncodeValue.ValueString, none) := by
  have hnew := NewWithData_valid
    { Alphabet := req.Config.Get.2.Alphabet.ValueString, MinLength := 0,
      Salt := req.Config.Get.2.Salt.ValueString } hnd hws (le_refl _) husable
  obtain ⟨hwf, hmin⟩ := newCodec_wellFormed (runes req.Config.Get.2.Alphabet.ValueString)
    (runes req.Config.Get.2.Salt.ValueString) 0 hnd husable
  obtain ⟨hashid, henc, hnonempty, hdec⟩ :=
    DecodeHex_EncodeHex hwf hmin req.Config.Get.2.EncodeValue.ValueString hne
  refine ⟨_, hashid, hnew, ?_, hnonempty, hdec⟩
  rw [Read_of_config_ok hashids d req resp hcfg]
  have hcodec : (hashids.NewWithData (readData hashids req.Config.Get.2)).1 =
      some (newCodec (runes req.Config.Get.2.Alphabet.ValueString)
        (runes req.Config.Get.2.Salt.ValueString) 0) := by
    show (NewWithData _).1 = _
    have : readData hashids req.Config.Get.2 =
        { Alphabet := req.Config.Get.2.Alphabet.ValueString, MinLength := 0,
          Salt := req.Config.Get.2.Salt.ValueString } := rfl
    rw [this, hnew]
    rfl
  have hlib : hashids.EncodeHex = EncodeHex := rfl
  rw [hcodec, hlib, henc]
  rfl

set_option maxRecDepth 100000 in
/-- C5 at concrete inputs.  With the alphabet of the 32 Cyrillic letters (two bytes each,
20 usable characters), no salt and the value "hello", `Read` writes a hash id of 30
characters that decodes to "68656c6c6f"; so does the hash id `K4CkFlCjTBC4U1CpUQCk`
written for the default alphabet with salt "this is my salt". -/
theorem Read_hash_id_decodes_witness :
    (∃ codec hashid,
      NewWithData { Alphabet := cyrillicAlphabet, MinLength := 0, Salt := [] }
        = (some codec, none) ∧
      Read hashids (NewHashIdDataSource Unit)
          (configOf cyrillicAlphabet 0 [] (ascii "hello")) freshResponse
        = .returned { State := some { Alphabet := .value cyrillicAlphabet,
                                      MinLength := .value 0, Salt := .value [],
                                      EncodeValue := .value (ascii "hello"),
                                      HashId := TfString.value hashid },
                      Diagnostics := [] } ∧
      hashid ≠ [] ∧
      DecodeHex codec hashid = (EncodeToString (ascii "hello"), none)) ∧
    writtenHashId (Read hashids (NewHashIdDataSource Unit)
        (configOf cyrillicAlphabet 0 [] (ascii "hello")) freshResponse)
      = .returned (some (.value (runesToString "оцнвюодхувннбтмвчшихцврщипювщт".toList))) ∧
    "оцнвюодхувннбтмвчшихцврщипювщт".toList.length = 30 ∧
    DecodeHex (newCodec (runes cyrillicAlphabet) [] 0)
        (runesToString "оцнвюодхувннбтмвчшихцврщипювщт".toList)
      = (ascii "68656c6c6f", none) ∧
    DecodeHex (newCodec (runes DefaultAlphabet) (runes (ascii "this is my salt")) 0)
        (ascii "K4CkFlCjTBC4U1CpUQCk")
      = (ascii "68656c6c6f", none) :=
  ⟨Read_hash_id_decodes (NewHashIdDataSource Unit)
     (configOf cyrillicAlphabet 0 [] (ascii "hello")) freshResponse
     (by decide) (by decide) (by decide) (by decide) (by decide),
   by decide, by decide, by decide, by decide⟩

end HashId
